import Mathlib

/-!
Shallow embedding of the graph-construction core of `FlowCanvas.jsx`
(visual pipeline editor): node classifier, candidate selector/orderer,
ambiguity detector, auto-connector, collision-avoidance layout,
manual connection protocol, node deletion.

Each definition mirrors the corresponding JavaScript function; machine
numbers are modelled as `Int`/`Nat` (no overflow is relevant here),
JavaScript `null`/`undefined` as `Option`, and the stable `Array.sort`
guaranteed by ES2019 as insertion sort (a stable sort; stable sorting by
a total preorder determines the output uniquely).
-/

/-- A 2-D position, ` \x7b x, y \x7d ` in the source. -/
structure Pos where
  x : Int
  y : Int
deriving Repr, DecidableEq

/-- A placed processing node (`job.components` element). -/
structure Component where
  id : String
  original_type : Option String
  type : Option String
  position : Pos
  active : Bool
deriving Repr, DecidableEq

/-- A directed connection (`job.flows` element). The source's `from`/`to`
fields are named `fromId`/`toId` because `from` is a Lean keyword. -/
structure FlowEdge where
  name : String
  fromId : String
  toId : String
  type : String
deriving Repr, DecidableEq

/-- The graph the core reads and atomically replaces. -/
structure Job where
  components : List Component
  flows : List FlowEdge
deriving Repr, DecidableEq

/-- Node category as used by the Smart Join classifier. -/
inductive Category where
  | Input
  | Transform
  | Output
deriving Repr, DecidableEq

/-- The inline category registry of `getComponentCategory`
(`FlowCanvas.jsx` lines 167-195). -/
def categoryRegistry : String → Option Category
  | "file_input_delimited" => some .Input
  | "fileinputdelimited" => some .Input
  | "oracle_input" => some .Input
  | "oracleinput" => some .Input
  | "mssql_input" => some .Input
  | "mssqlinput" => some .Input
  | "fixed_flow_input" => some .Input
  | "fixedflowinput" => some .Input
  | "row_generator" => some .Input
  | "rowgenerator" => some .Input
  | "filter_rows" => some .Transform
  | "filterrows" => some .Transform
  | "map" => some .Transform
  | "aggregate_row" => some .Transform
  | "aggregaterow" => some .Transform
  | "unique_row" => some .Transform
  | "uniquerow" => some .Transform
  | "join" => some .Transform
  | "unite" => some .Transform
  | "sort_row" => some .Transform
  | "sortrow" => some .Transform
  | "file_output_delimited" => some .Output
  | "fileoutputdelimited" => some .Output
  | "oracle_output" => some .Output
  | "oracleoutput" => some .Output
  | "file_output_positional" => some .Output
  | "fileoutputpositional" => some .Output
  | _ => none

/-- JavaScript `toLowerCase()` on the character list (the registry keys are
ASCII, for which `Char.toLower` agrees with JavaScript). -/
def strToLower (s : String) : String :=
  ⟨s.data.map Char.toLower⟩

/-- `component.type?.toLowerCase() || 'unknown'` (empty strings are falsy). -/
def chosenFallbackType (c : Component) : String :=
  match c.type with
  | some s => if s = "" then "unknown" else strToLower s
  | none => "unknown"

/-- `component.original_type?.toLowerCase() || component.type?.toLowerCase() || 'unknown'`. -/
def chosenType (c : Component) : String :=
  match c.original_type with
  | some s => if s = "" then chosenFallbackType c else strToLower s
  | none => chosenFallbackType c

/-- Strip one leading `t` when more characters follow
(`componentType.startsWith('t') && componentType.length > 1`,
then `substring(1)`): on the character list, a head `t` followed by at
least one character is dropped. -/
def normalizeComponentType (s : String) : String :=
  match s.data with
  | 't' :: c :: rest => ⟨c :: rest⟩
  | _ => s

/-- `getComponentCategory` (`FlowCanvas.jsx` lines 154-200):
normalize the chosen type string, look it up, default `Transform`. -/
def getComponentCategory (c : Component) : Category :=
  (categoryRegistry (normalizeComponentType (chosenType c))).getD .Transform

/-- Decimal value of a digit list (`parseInt(digits, 10)`). -/
def digitsVal (ds : List Char) : Nat :=
  ds.foldl (fun acc c => acc * 10 + (c.toNat - 48)) 0

/-- `getNumericSuffix` (`FlowCanvas.jsx` lines 203-206): the regular
expression match of a trailing underscore-then-digits pattern, i.e. the
maximal trailing run of digits provided it is nonempty and preceded by
an underscore; otherwise 0. -/
def getNumericSuffix (s : String) : Nat :=
  match s.data.reverse.takeWhile Char.isDigit, s.data.reverse.dropWhile Char.isDigit with
  | [], _ => 0
  | ds, '_' :: _ => digitsVal ds.reverse
  | _, _ => 0

/-- `categoryPriority` lookup table. -/
def categoryPriorityOf : Category → Nat
  | .Input => 1
  | .Transform => 2
  | .Output => 3

/-- The sort key of the Smart Join comparator: category priority, then
numeric suffix of the id. -/
def nodeKey (c : Component) : Nat × Nat :=
  (categoryPriorityOf (getComponentCategory c), getNumericSuffix c.id)

/-- The total preorder induced by the Smart Join comparator
(`priorityDiff` first, then suffix difference). -/
def nodeLE (a b : Component) : Prop :=
  (nodeKey a).1 < (nodeKey b).1 ∨ ((nodeKey a).1 = (nodeKey b).1 ∧ (nodeKey a).2 ≤ (nodeKey b).2)

instance : DecidableRel nodeLE := fun a b => by
  unfold nodeLE
  infer_instance

instance : IsTotal Component nodeLE :=
  ⟨by
    intro a b
    unfold nodeLE
    omega⟩

instance : IsTrans Component nodeLE :=
  ⟨by
    intro a b c hab hbc
    unfold nodeLE at hab hbc ⊢
    omega⟩

/-- `availableNodes.sort(comparator)`: ES2019 `Array.sort` is stable, and a
stable sort by a total preorder is exactly insertion sort by that preorder. -/
def sortNodes (l : List Component) : List Component :=
  List.insertionSort nodeLE l

/-- The `from` ids of the existing flows (`componentsWithOutgoing`). -/
def flowFroms (job : Job) : List String :=
  job.flows.map FlowEdge.fromId

/-- Nodes without an outgoing connection (the Smart Join candidates). -/
def availableNodes (job : Job) : List Component :=
  job.components.filter (fun c => c.id ∉ flowFroms job)

/-- The candidates in comparator order (`sortedNodes` in the source). -/
def sortedNodes (job : Job) : List Component :=
  sortNodes (availableNodes job)

/-- Input-category candidates, in sorted order. -/
def inputNodesOf (job : Job) : List Component :=
  (sortedNodes job).filter (fun c => getComponentCategory c = Category.Input)

/-- Output-category candidates, in sorted order. -/
def outputNodesOf (job : Job) : List Component :=
  (sortedNodes job).filter (fun c => getComponentCategory c = Category.Output)

/-- Transform-category candidates, in sorted order. -/
def transformNodesOf (job : Job) : List Component :=
  (sortedNodes job).filter (fun c => getComponentCategory c = Category.Transform)

/-- `fanInSelection` of the guided join state. -/
structure FanInSelection where
  upstreamTransforms : List String
  downstreamTransform : Option String
deriving Repr, DecidableEq

/-- The `guidedJoinData` state initialized when Smart Join is ambiguous. -/
structure GuidedJoinData where
  inputNodes : List Component
  transformNodes : List Component
  outputNodes : List Component
  inputMappings : List (String × String)
  fanInSelection : FanInSelection
  finalOutput : Option String
deriving Repr, DecidableEq

/-- The guided join state built at `FlowCanvas.jsx` lines 241-248. -/
def mkGuidedData (job : Job) : GuidedJoinData :=
  { inputNodes := inputNodesOf job
    transformNodes := transformNodesOf job
    outputNodes := outputNodesOf job
    inputMappings := []
    fanInSelection := { upstreamTransforms := [], downstreamTransform := none }
    finalOutput :=
      match outputNodesOf job with
      | [o] => some o.id
      | _ => none }

/-- The Auto-Connector loop (`FlowCanvas.jsx` lines 263-302): for each
consecutive pair of the sorted candidates, skip Input targets, Output
sources and pairs already connected in the pre-existing flow set. -/
def buildNewFlows (existing : List FlowEdge) : List Component → List FlowEdge
  | a :: b :: rest =>
    let tail := buildNewFlows existing (b :: rest)
    if getComponentCategory b = Category.Input then tail
    else if getComponentCategory a = Category.Output then tail
    else if existing.any (fun f => f.fromId = a.id && f.toId = b.id) then tail
    else { name := "main", fromId := a.id, toId := b.id, type := "flow" } :: tail
  | _ => []

/-- The flows a Smart Join run would create. -/
def newFlowsOf (job : Job) : List FlowEdge :=
  buildNewFlows job.flows (sortedNodes job)

/-- Observable outcome of one `handleSmartJoin` invocation. -/
inductive SJOutcome where
  | noJob
  | insufficient
  | ambiguous
  | success
  | noNew
  | silentSkip
deriving Repr, DecidableEq

/-- The warning shown when fewer than two candidates exist. -/
def insufficientMsg : String :=
  "At least 2 unconnected components are required for Smart Join."

/-- The warning shown when the topology is ambiguous. -/
def ambiguousMsg : String :=
  "Multiple execution paths detected. Please define sequence manually."

/-- The warning shown when zero new flows were built. -/
def noNewMsg : String :=
  "No new connections could be created. Components may already be connected."

/-- Result of one `handleSmartJoin` invocation: outcome, the warning (if
any) passed to `setSmartJoinWarning`, whether the modal was shown, the
guided join state (if stored), and the resulting job. -/
structure SJResult where
  outcome : SJOutcome
  warning : Option String
  modalShown : Bool
  guided : Option GuidedJoinData
  job : Job
deriving Repr, DecidableEq

/-- `handleSmartJoin` (`FlowCanvas.jsx` lines 129-324). -/
def handleSmartJoin (job : Job) : SJResult :=
  if job.components = [] then
    { outcome := .noJob, warning := none, modalShown := false, guided := none, job := job }
  else if (availableNodes job).length < 2 then
    { outcome := .insufficient, warning := some insufficientMsg, modalShown := true,
      guided := none, job := job }
  else if (sortedNodes job).length > 5 ∨ (inputNodesOf job).length > 1 ∨
      (outputNodesOf job).length > 1 then
    { outcome := .ambiguous, warning := some ambiguousMsg, modalShown := true,
      guided := some (mkGuidedData job), job := job }
  else if (inputNodesOf job).length = 1 ∧ (outputNodesOf job).length = 1 then
    if newFlowsOf job ≠ [] then
      { outcome := .success, warning := none, modalShown := false, guided := none,
        job := { job with flows := job.flows ++ newFlowsOf job } }
    else
      { outcome := .noNew, warning := some noNewMsg, modalShown := true,
        guided := none, job := job }
  else
    { outcome := .silentSkip, warning := none, modalShown := false, guided := none, job := job }

/-- Fixed node footprint width (`NODE_WIDTH = 140`). -/
def NODE_WIDTH : Int := 140

/-- Fixed node footprint height (`NODE_HEIGHT = 80`). -/
def NODE_HEIGHT : Int := 80

/-- Minimum vertical separation (`MIN_OFFSET = 40`). -/
def MIN_OFFSET : Int := 40

/-- A component together with its derived render position
(`adjustedComponents` entries of `applyCollisionAvoidance`). -/
structure RenderedComponent where
  comp : Component
  renderPosition : Pos
deriving Repr, DecidableEq

/-- Axis-aligned bounding-box overlap test of the collision pass
(`xOverlap && yOverlap`, `FlowCanvas.jsx` lines 433-445). -/
def boxesOverlap (a b : Pos) : Prop :=
  (a.x < b.x + NODE_WIDTH ∧ a.x + NODE_WIDTH > b.x) ∧
    (a.y < b.y + NODE_HEIGHT ∧ a.y + NODE_HEIGHT > b.y)

instance : DecidablePred fun p : Pos × Pos => boxesOverlap p.1 p.2 := fun _ => by
  unfold boxesOverlap
  infer_instance

instance (a b : Pos) : Decidable (boxesOverlap a b) := by
  unfold boxesOverlap
  infer_instance

/-- The loop body of `applyCollisionAvoidance` for one pair `(nodeA, nodeB)`
(`FlowCanvas.jsx` lines 447-455): on overlap, the node with the larger
(or, on a tie, the second) original `y` gets its render `y` set to the
other box's bottom plus `MIN_OFFSET`. -/
def collisionPairStep (a b : RenderedComponent) : RenderedComponent × RenderedComponent :=
  if boxesOverlap a.renderPosition b.renderPosition then
    if b.comp.position.y ≥ a.comp.position.y then
      (a, { b with renderPosition :=
        { b.renderPosition with y := a.renderPosition.y + NODE_HEIGHT + MIN_OFFSET } })
    else
      ({ a with renderPosition :=
        { a.renderPosition with y := b.renderPosition.y + NODE_HEIGHT + MIN_OFFSET } }, b)
  else (a, b)

/-- The inner loop (`j` from `i+1`): fold `a` through the remaining nodes,
threading the possibly-updated `a`. -/
def collisionInner (a : RenderedComponent) :
    List RenderedComponent → RenderedComponent × List RenderedComponent
  | [] => (a, [])
  | b :: rest =>
    let p := collisionPairStep a b
    let r := collisionInner p.1 rest
    (r.1, p.2 :: r.2)

/-- The outer loop (`i` ascending), with fuel equal to the list length
(the inner loop preserves length, so the fuel is exact). -/
def collisionSweepAux : Nat → List RenderedComponent → List RenderedComponent
  | 0, l => l
  | _ + 1, [] => []
  | n + 1, a :: rest =>
    let p := collisionInner a rest
    p.1 :: collisionSweepAux n p.2

/-- One full O(n²) sweep over the pair list. -/
def collisionSweep (l : List RenderedComponent) : List RenderedComponent :=
  collisionSweepAux l.length l

/-- `applyCollisionAvoidance` (`FlowCanvas.jsx` lines 412-459): copy each
stored position into a render position, then run the pairwise sweep. -/
def applyCollisionAvoidance (components : List Component) : List RenderedComponent :=
  collisionSweep (components.map fun c => { comp := c, renderPosition := c.position })

/-- Transient state of the manual connection drag
(`connectionDragState`). -/
structure ConnectionDragState where
  isDragging : Bool
  sourceComponentId : Option String
  sourcePort : Option String
  currentX : Int
  currentY : Int
deriving Repr, DecidableEq

/-- The initial / reset connection drag state. -/
def initialConnectionDragState : ConnectionDragState :=
  { isDragging := false, sourceComponentId := none, sourcePort := none,
    currentX := 0, currentY := 0 }

/-- `handleAnchorMouseDown` (`FlowCanvas.jsx` lines 558-600), state part:
only an output anchor starts a drag; the cursor coordinates come from the
DOM and are passed in here. -/
def handleAnchorMouseDown (st : ConnectionDragState) (componentId : String)
    (port : Option String) (anchorType : String) (x y : Int) : ConnectionDragState :=
  if anchorType ≠ "output" then st
  else
    { isDragging := true, sourceComponentId := some componentId, sourcePort := port,
      currentX := x, currentY := y }

/-- The document-level mouse-up handler installed by `handleAnchorMouseDown`:
it only resets the drag state and never touches the job. -/
def handleConnectionMouseUp (_st : ConnectionDragState) : ConnectionDragState :=
  initialConnectionDragState

/-- The port name of a manually drawn flow:
`` `${connectionDragState.sourcePort || 'main'}` ``. -/
def manualPortName (sourcePort : Option String) : String :=
  match sourcePort with
  | some p => if p = "" then "main" else p
  | none => "main"

/-- `handleAnchorMouseUp` (`FlowCanvas.jsx` lines 602-637), job part:
commit a new flow when a drag is released on an input anchor of a
different node and no identical `(from, to)` flow exists. -/
def handleAnchorMouseUp (job : Job) (st : ConnectionDragState)
    (targetComponentId : String) (anchorType : String) : Job :=
  if st.isDragging = false ∨ anchorType ≠ "input" then job
  else if st.sourceComponentId = some targetComponentId then job
  else if (job.flows.find? fun f =>
      st.sourceComponentId = some f.fromId && f.toId = targetComponentId).isSome then job
  else
    match st.sourceComponentId with
    | some s =>
      { job with flows := job.flows ++
          [{ name := manualPortName st.sourcePort, fromId := s,
             toId := targetComponentId, type := "flow" }] }
    | none => job

/-- `handleDeleteNode` (`FlowCanvas.jsx` lines 65-84): remove the component
and every flow touching it, in one commit; a falsy node id is a no-op. -/
def handleDeleteNode (job : Job) (nodeId : String) : Job :=
  if nodeId = "" then job
  else
    { job with
      components := job.components.filter (fun c => c.id ≠ nodeId),
      flows := job.flows.filter (fun f => f.fromId ≠ nodeId ∧ f.toId ≠ nodeId) }

/-- `handleClearCanvas` (`FlowCanvas.jsx` lines 87-105), graph part. -/
def handleClearCanvas (job : Job) : Job :=
  { job with components := [], flows := [] }

/-- The port information of one registry entry. -/
structure PortInfo where
  inputs : List String
  outputs : List String
deriving Repr, DecidableEq

/-- The inline port registry of `getComponentRegistryInfo`
(`FlowCanvas.jsx` lines 664-679). -/
def portRegistry : String → Option PortInfo
  | "file_input_delimited" => some { inputs := [], outputs := ["main"] }
  | "file_output_delimited" => some { inputs := ["main"], outputs := ["main"] }
  | "map" => some { inputs := ["main"], outputs := ["main"] }
  | "filter_rows" => some { inputs := ["main"], outputs := ["main", "reject"] }
  | "aggregate_row" => some { inputs := ["main"], outputs := ["main", "reject"] }
  | "unique_row" => some { inputs := ["main"], outputs := ["main"] }
  | "oracle_input" => some { inputs := [], outputs := ["main", "reject"] }
  | "oracle_output" => some { inputs := ["main"], outputs := [] }
  | "join" => some { inputs := ["main", "lookup"], outputs := ["main", "reject"] }
  | "unite" => some { inputs := ["main", "lookup"], outputs := ["main"] }
  | "log_row" => some { inputs := ["main"], outputs := ["main"] }
  | "python_component" => some { inputs := [], outputs := ["main"] }
  | "die" => some { inputs := ["main"], outputs := [] }
  | "warn" => some { inputs := ["main"], outputs := ["main"] }
  | _ => none

/-- JavaScript `s.replace('t', '')`: remove the first occurrence of `t`
anywhere in the string (not only a leading one). -/
def removeFirstTAux : List Char → List Char
  | [] => []
  | c :: rest => if c = 't' then rest else c :: removeFirstTAux rest

/-- String wrapper of `removeFirstTAux`. -/
def removeFirstT (s : String) : String :=
  ⟨removeFirstTAux s.data⟩

/-- The key used by the port lookup:
`component.original_type?.toLowerCase().replace('t', '') ||
component.type?.toLowerCase() || 'default'`. -/
def portLookupKey (c : Component) : String :=
  match c.original_type with
  | some s =>
    if removeFirstT (strToLower s) = "" then portFallbackKey c else removeFirstT (strToLower s)
  | none => portFallbackKey c
where
  /-- `component.type?.toLowerCase() || 'default'`. -/
  portFallbackKey (c : Component) : String :=
    match c.type with
    | some s => if s = "" then "default" else strToLower s
    | none => "default"

/-- `getComponentRegistryInfo` (`FlowCanvas.jsx` lines 660-690). -/
def getComponentRegistryInfo (c : Component) : PortInfo :=
  (portRegistry (portLookupKey c)).getD { inputs := ["main"], outputs := ["main"] }

/-- Normalization exactly as §4.1 of the specification words it (and as the
category path implements it): lower-case, then strip one leading `t` when
more characters follow. Used to compare the port path against the spec. -/
def specNormalize (s : String) : String :=
  normalizeComponentType (strToLower s)

/-- The flows of an unbroken chain along a candidate list: one `main` flow
per consecutive pair. `buildNewFlows` coincides with this whenever no pair
is skipped. -/
def chainFlows : List Component → List FlowEdge
  | a :: b :: rest =>
    { name := "main", fromId := a.id, toId := b.id, type := "flow" } :: chainFlows (b :: rest)
  | _ => []

/-- Referential integrity of a job: every flow endpoint names an existing
component id (§3 Graph invariant). -/
def refIntegrity (job : Job) : Prop :=
  ∀ f ∈ job.flows,
    (∃ c ∈ job.components, c.id = f.fromId) ∧ (∃ c ∈ job.components, c.id = f.toId)

/-- A test node with the given id and `original_type`. -/
def mkTestNode (i : String) (ot : String) : Component :=
  { id := i, original_type := some ot, type := none,
    position := { x := 0, y := 0 }, active := true }

/-- Test fixture: an Input-category node. -/
def inNode : Component := mkTestNode "in_1" "tFileInputDelimited"

/-- Test fixture: a second Input-category node. -/
def inNode2 : Component := mkTestNode "in_2" "tFileInputDelimited"

/-- Test fixture: an Output-category node. -/
def outNode : Component := mkTestNode "out_2" "tFileOutputDelimited"

/-- Test fixture: a job with one Input and one Output candidate. -/
def jobInOut : Job := { components := [inNode, outNode], flows := [] }

/-- Test fixture: a job with two Input candidates and one Output candidate. -/
def jobAmb : Job := { components := [inNode, inNode2, outNode], flows := [] }

/-- Test fixture: Transform-category node `m_1`. -/
def mapNode1 : Component := mkTestNode "m_1" "tMap"

/-- Test fixture: Transform-category node `m_2`. -/
def mapNode2 : Component := mkTestNode "m_2" "tMap"

/-- Test fixture: a job whose candidates are two Transform nodes only. -/
def jobTT : Job := { components := [mapNode1, mapNode2], flows := [] }

/-- Test fixture: a node whose `original_type` is `unite` (no leading `t`). -/
def uniteNode : Component := mkTestNode "u_1" "unite"

/-- Test fixture: vendor-style type string. -/
def tfidNode : Component := mkTestNode "a_1" "tFileInputDelimited"

/-- Test fixture: already-normalized type string. -/
def fidNode : Component := mkTestNode "a_2" "fileinputdelimited"

/-- Test fixture: Transform nodes with shuffled suffixes for the ordering test. -/
def nodeN3 : Component := mkTestNode "n_3" "tMap"

/-- Test fixture: see `nodeN3`. -/
def nodeN1 : Component := mkTestNode "n_1" "tMap"

/-- Test fixture: see `nodeN3`. -/
def nodeN2 : Component := mkTestNode "n_2" "tMap"

/-! ### General lemmas about the embedded operations -/

theorem sortNodes_perm (l : List Component) : List.Perm (sortNodes l) l :=
  List.perm_insertionSort nodeLE l

theorem sortNodes_sorted (l : List Component) : List.Sorted nodeLE (sortNodes l) :=
  List.sorted_insertionSort nodeLE l

theorem one_le_categoryPriorityOf (c : Category) : 1 ≤ categoryPriorityOf c := by
  cases c <;> simp [categoryPriorityOf]

theorem categoryPriorityOf_le_three (c : Category) : categoryPriorityOf c ≤ 3 := by
  cases c <;> simp [categoryPriorityOf]

theorem category_input_of_priority_le_one (c : Category)
    (h : categoryPriorityOf c ≤ 1) : c = .Input := by
  cases c <;> simp_all [categoryPriorityOf]

theorem category_output_of_three_le_priority (c : Category)
    (h : 3 ≤ categoryPriorityOf c) : c = .Output := by
  cases c <;> simp_all [categoryPriorityOf]

theorem collisionPairStep_comp (a b : RenderedComponent) :
    (collisionPairStep a b).1.comp = a.comp ∧ (collisionPairStep a b).2.comp = b.comp := by
  unfold collisionPairStep
  split_ifs <;> simp

theorem collisionInner_comp (a : RenderedComponent) (l : List RenderedComponent) :
    (collisionInner a l).1.comp = a.comp ∧
      (collisionInner a l).2.map RenderedComponent.comp = l.map RenderedComponent.comp := by
  induction l generalizing a with
  | nil => simp [collisionInner]
  | cons b rest ih =>
    simp only [collisionInner, List.map_cons]
    constructor
    · rw [(ih _).1, (collisionPairStep_comp a b).1]
    · rw [(collisionPairStep_comp a b).2, (ih _).2]

theorem collisionSweepAux_comp (n : Nat) (l : List RenderedComponent) :
    (collisionSweepAux n l).map RenderedComponent.comp = l.map RenderedComponent.comp := by
  induction n generalizing l with
  | zero => rfl
  | succ n ih =>
    cases l with
    | nil => rfl
    | cons a rest =>
      simp only [collisionSweepAux, List.map_cons]
      rw [ih, (collisionInner_comp a rest).2, (collisionInner_comp a rest).1]

/-- C7: the collision-avoidance pass leaves every stored node position (indeed
every component record) unchanged, writing only derived render positions; a
pairwise step on overlapping boxes pushes the node with the strictly larger
original `y` down to the other box's bottom plus the separation constant and
leaves the other node untouched; and two nodes at identical positions no
longer overlap after one pass. -/
theorem collision_avoidance_correct :
    (∀ comps : List Component,
      (applyCollisionAvoidance comps).map RenderedComponent.comp = comps)
    ∧ (∀ a b : RenderedComponent, boxesOverlap a.renderPosition b.renderPosition →
        (b.comp.position.y > a.comp.position.y →
          collisionPairStep a b = (a, { b with renderPosition :=
            { b.renderPosition with
              y := a.renderPosition.y + NODE_HEIGHT + MIN_OFFSET } })) ∧
        (a.comp.position.y > b.comp.position.y →
          collisionPairStep a b = ({ a with renderPosition :=
            { a.renderPosition with
              y := b.renderPosition.y + NODE_HEIGHT + MIN_OFFSET } }, b)))
    ∧ (∀ c1 c2 : Component, c1.position = c2.position →
        applyCollisionAvoidance [c1, c2] =
          [{ comp := c1, renderPosition := c1.position },
           { comp := c2, renderPosition :=
             { x := c2.position.x, y := c1.position.y + NODE_HEIGHT + MIN_OFFSET } }] ∧
        ¬ boxesOverlap c1.position
            { x := c2.position.x, y := c1.position.y + NODE_HEIGHT + MIN_OFFSET }) := by
  refine ⟨?_, ?_, ?_⟩
  · intro comps
    unfold applyCollisionAvoidance collisionSweep
    rw [collisionSweepAux_comp, List.map_map]
    exact List.map_id comps
  · intro a b hov
    constructor
    · intro hgt
      unfold collisionPairStep
      rw [if_pos hov, if_pos (le_of_lt hgt)]
    · intro hgt
      unfold collisionPairStep
      rw [if_pos hov, if_neg (by omega)]
  · intro c1 c2 h
    have hov : boxesOverlap c1.position c2.position := by
      rw [← h]
      unfold boxesOverlap NODE_WIDTH NODE_HEIGHT
      omega
    have hstep : collisionPairStep { comp := c1, renderPosition := c1.position }
        { comp := c2, renderPosition := c2.position } =
        ({ comp := c1, renderPosition := c1.position },
         { comp := c2, renderPosition :=
           { x := c2.position.x, y := c1.position.y + NODE_HEIGHT + MIN_OFFSET } }) := by
      unfold collisionPairStep
      rw [if_pos hov, if_pos (le_of_eq (by rw [h]))]
    constructor
    · unfold applyCollisionAvoidance collisionSweep
      simp only [List.map_cons, List.map_nil, List.length_cons, List.length_nil]
      simp only [collisionSweepAux, collisionInner, hstep]
    · intro hcon
      simp only [boxesOverlap, NODE_WIDTH, NODE_HEIGHT, MIN_OFFSET] at hcon
      omega

/-- C7 witness: instantiation at two concrete nodes sharing position (0, 0). -/
theorem collision_avoidance_correct_witness :
    mapNode1.position = mapNode2.position ∧
    applyCollisionAvoidance [mapNode1, mapNode2] =
      [{ comp := mapNode1, renderPosition := mapNode1.position },
       { comp := mapNode2, renderPosition :=
         { x := mapNode2.position.x,
           y := mapNode1.position.y + NODE_HEIGHT + MIN_OFFSET } }] :=
  ⟨by decide, (collision_avoidance_correct.2.2 mapNode1 mapNode2 (by decide)).1⟩

/-- C10: when two overlapping nodes have equal stored `y`, the pairwise step
pushes the second node of the pair downward (its new render top lies strictly
below its old one) and leaves the first node unchanged. -/
theorem collision_tie_pushes_second (a b : RenderedComponent)
    (hov : boxesOverlap a.renderPosition b.renderPosition)
    (heq : b.comp.position.y = a.comp.position.y) :
    collisionPairStep a b =
      (a, { b with renderPosition :=
        { b.renderPosition with y := a.renderPosition.y + NODE_HEIGHT + MIN_OFFSET } }) ∧
    b.renderPosition.y < a.renderPosition.y + NODE_HEIGHT + MIN_OFFSET := by
  constructor
  · unfold collisionPairStep
    rw [if_pos hov, if_pos heq.ge]
  · simp only [boxesOverlap, NODE_WIDTH, NODE_HEIGHT, MIN_OFFSET] at hov
    simp only [NODE_HEIGHT, MIN_OFFSET]
    omega

/-- C10 witness: instantiation at two concrete overlapping entries with
equal stored `y`. -/
theorem collision_tie_pushes_second_witness :
    boxesOverlap ({ x := 0, y := 0 } : Pos) { x := 0, y := 0 } ∧
    mapNode2.position.y = mapNode1.position.y ∧
    collisionPairStep { comp := mapNode1, renderPosition := { x := 0, y := 0 } }
        { comp := mapNode2, renderPosition := { x := 0, y := 0 } } =
      ({ comp := mapNode1, renderPosition := { x := 0, y := 0 } },
       { comp := mapNode2, renderPosition := { x := 0, y := 120 } }) :=
  ⟨by decide, by decide,
    (collision_tie_pushes_second
      { comp := mapNode1, renderPosition := { x := 0, y := 0 } }
      { comp := mapNode2, renderPosition := { x := 0, y := 0 } }
      (by decide) (by decide)).1⟩

theorem handleSmartJoin_components (job : Job) :
    (handleSmartJoin job).job.components = job.components := by
  unfold handleSmartJoin
  split_ifs <;> rfl

theorem handleSmartJoin_job_of_ne_success (job : Job)
    (h : (handleSmartJoin job).outcome ≠ .success) :
    (handleSmartJoin job).job = job := by
  unfold handleSmartJoin at h ⊢
  split_ifs at h ⊢ <;> simp_all

theorem handleSmartJoin_success_iff (job : Job) :
    (handleSmartJoin job).outcome = .success ↔
      job.components ≠ [] ∧ ¬ (availableNodes job).length < 2 ∧
      ¬ ((sortedNodes job).length > 5 ∨ (inputNodesOf job).length > 1 ∨
          (outputNodesOf job).length > 1) ∧
      ((inputNodesOf job).length = 1 ∧ (outputNodesOf job).length = 1) ∧
      newFlowsOf job ≠ [] := by
  unfold handleSmartJoin
  split_ifs <;> simp_all

theorem handleSmartJoin_success_job (job : Job)
    (h : (handleSmartJoin job).outcome = .success) :
    (handleSmartJoin job).job = { job with flows := job.flows ++ newFlowsOf job } := by
  unfold handleSmartJoin at h ⊢
  split_ifs at h ⊢ <;> simp_all

theorem buildNewFlows_spec (existing : List FlowEdge) (l : List Component) :
    ∀ e ∈ buildNewFlows existing l,
      e.name = "main" ∧ e.type = "flow" ∧
      ∃ l1 a b l2, l = l1 ++ a :: b :: l2 ∧ e.fromId = a.id ∧ e.toId = b.id ∧
        getComponentCategory b ≠ .Input ∧ getComponentCategory a ≠ .Output ∧
        ¬ ∃ f ∈ existing, f.fromId = a.id ∧ f.toId = b.id := by
  induction l with
  | nil =>
    intro e he
    simp [buildNewFlows] at he
  | cons a t ih =>
    cases t with
    | nil =>
      intro e he
      simp [buildNewFlows] at he
    | cons b rest =>
      intro e he
      simp only [buildNewFlows] at he
      have lift : ∀ e : FlowEdge, (e.name = "main" ∧ e.type = "flow" ∧
          ∃ l1 a' b' l2, b :: rest = l1 ++ a' :: b' :: l2 ∧ e.fromId = a'.id ∧
            e.toId = b'.id ∧ getComponentCategory b' ≠ .Input ∧
            getComponentCategory a' ≠ .Output ∧
            ¬ ∃ f ∈ existing, f.fromId = a'.id ∧ f.toId = b'.id) →
          e.name = "main" ∧ e.type = "flow" ∧
          ∃ l1 a' b' l2, a :: b :: rest = l1 ++ a' :: b' :: l2 ∧ e.fromId = a'.id ∧
            e.toId = b'.id ∧ getComponentCategory b' ≠ .Input ∧
            getComponentCategory a' ≠ .Output ∧
            ¬ ∃ f ∈ existing, f.fromId = a'.id ∧ f.toId = b'.id := by
        rintro e ⟨hn, ht, l1, a', b', l2, hdec, hrest⟩
        exact ⟨hn, ht, a :: l1, a', b', l2, by rw [hdec]; rfl, hrest⟩
      by_cases h1 : getComponentCategory b = Category.Input
      · rw [if_pos h1] at he
        exact lift e (ih e he)
      · rw [if_neg h1] at he
        by_cases h2 : getComponentCategory a = Category.Output
        · rw [if_pos h2] at he
          exact lift e (ih e he)
        · rw [if_neg h2] at he
          by_cases h3 : existing.any (fun f => f.fromId = a.id && f.toId = b.id) = true
          · rw [if_pos h3] at he
            exact lift e (ih e he)
          · rw [if_neg h3] at he
            rcases List.mem_cons.mp he with hhd | htl
            · subst hhd
              refine ⟨rfl, rfl, [], a, b, rest, rfl, rfl, rfl, h1, h2, ?_⟩
              rw [List.any_eq_true] at h3
              push_neg at h3
              rintro ⟨f, hf, hfrom, hto⟩
              exact h3 f hf (by simp [hfrom, hto])
            · exact lift e (ih e htl)

theorem sortedNodes_mem_components (job : Job) {c : Component}
    (h : c ∈ sortedNodes job) : c ∈ job.components :=
  List.mem_of_mem_filter ((sortNodes_perm (availableNodes job)).mem_iff.mp h)

theorem refIntegrity_smartJoin (job : Job) (h : refIntegrity job) :
    refIntegrity (handleSmartJoin job).job := by
  by_cases hs : (handleSmartJoin job).outcome = .success
  · rw [handleSmartJoin_success_job job hs]
    intro f hf
    rw [List.mem_append] at hf
    cases hf with
    | inl hf => exact h f hf
    | inr hf =>
      obtain ⟨-, -, l1, a, b, l2, hdec, hfrom, hto, -, -, -⟩ :=
        buildNewFlows_spec job.flows (sortedNodes job) f hf
      have ha : a ∈ sortedNodes job := by rw [hdec]; simp
      have hb : b ∈ sortedNodes job := by rw [hdec]; simp
      exact ⟨⟨a, sortedNodes_mem_components job ha, hfrom.symm⟩,
        ⟨b, sortedNodes_mem_components job hb, hto.symm⟩⟩
  · rw [handleSmartJoin_job_of_ne_success job hs]
    exact h

theorem refIntegrity_delete (job : Job) (nid : String) (h : refIntegrity job) :
    refIntegrity (handleDeleteNode job nid) := by
  unfold handleDeleteNode
  split_ifs with h0
  · exact h
  · intro f hf
    rw [List.mem_filter] at hf
    obtain ⟨hfmem, hcond⟩ := hf
    have hcond' : f.fromId ≠ nid ∧ f.toId ≠ nid := by simpa using hcond
    obtain ⟨⟨cf, hcf, hcfid⟩, ⟨ct, hct, hctid⟩⟩ := h f hfmem
    refine ⟨⟨cf, ?_, hcfid⟩, ⟨ct, ?_, hctid⟩⟩
    · rw [List.mem_filter]
      exact ⟨hcf, by simp [hcfid, hcond'.1]⟩
    · rw [List.mem_filter]
      exact ⟨hct, by simp [hctid, hcond'.2]⟩

theorem refIntegrity_anchorMouseUp (job : Job) (st : ConnectionDragState)
    (tc t s : String) (h : refIntegrity job)
    (hsrc : st.sourceComponentId = some s)
    (hsmem : ∃ c ∈ job.components, c.id = s)
    (htmem : ∃ c ∈ job.components, c.id = tc) :
    refIntegrity (handleAnchorMouseUp job st tc t) := by
  unfold handleAnchorMouseUp
  split_ifs with h1 h2 h3
  · exact h
  · exact h
  · exact h
  · rw [hsrc]
    intro f hf
    rw [List.mem_append] at hf
    cases hf with
    | inl hf => exact h f hf
    | inr hf =>
      rw [List.mem_singleton] at hf
      subst hf
      exact ⟨hsmem, htmem⟩

/-- C9: every graph-mutating operation of the core preserves referential
integrity of flow endpoints, and node deletion removes, in the same commit,
the node and every flow whose `from` or `to` equals the deleted id. -/
theorem graph_mutations_preserve_integrity :
    (∀ (job : Job) (nid : String), refIntegrity job →
      refIntegrity (handleDeleteNode job nid))
    ∧ (∀ (job : Job) (nid : String), nid ≠ "" →
        (handleDeleteNode job nid).components =
            job.components.filter (fun c => c.id ≠ nid) ∧
        (handleDeleteNode job nid).flows =
            job.flows.filter (fun f => f.fromId ≠ nid ∧ f.toId ≠ nid) ∧
        (∀ f ∈ (handleDeleteNode job nid).flows, f.fromId ≠ nid ∧ f.toId ≠ nid) ∧
        (∀ c ∈ (handleDeleteNode job nid).components, c.id ≠ nid))
    ∧ (∀ job : Job, refIntegrity job → refIntegrity (handleSmartJoin job).job)
    ∧ (∀ (job : Job) (st : ConnectionDragState) (tc t s : String), refIntegrity job →
        st.sourceComponentId = some s →
        (∃ c ∈ job.components, c.id = s) → (∃ c ∈ job.components, c.id = tc) →
        refIntegrity (handleAnchorMouseUp job st tc t))
    ∧ (∀ job : Job, refIntegrity (handleClearCanvas job)) := by
  refine ⟨refIntegrity_delete, ?_, refIntegrity_smartJoin, ?_, ?_⟩
  · intro job nid h0
    unfold handleDeleteNode
    rw [if_neg h0]
    refine ⟨rfl, rfl, ?_, ?_⟩
    · intro f hf
      rw [List.mem_filter] at hf
      simpa using hf.2
    · intro c hc
      rw [List.mem_filter] at hc
      simpa using hc.2
  · intro job st tc t s h hsrc hsmem htmem
    exact refIntegrity_anchorMouseUp job st tc t s h hsrc hsmem htmem
  · intro job f hf
    simp [handleClearCanvas] at hf

/-- C9 witness: instantiation at a concrete two-node job, deleting `in_1`. -/
theorem graph_mutations_preserve_integrity_witness :
    refIntegrity jobInOut ∧ refIntegrity (handleDeleteNode jobInOut "in_1") :=
  ⟨by intro f hf; simp [jobInOut] at hf,
    graph_mutations_preserve_integrity.1 jobInOut "in_1"
      (by intro f hf; simp [jobInOut] at hf)⟩

/-- C8: a manual connection drag begins only from an output anchor; releasing
over an input anchor while dragging commits exactly one new flow, with
`portName` the source port (or `main`) and kind `flow`, precisely when the
target differs from the source and no identical `(from, to)` flow exists;
self-connections and duplicates are silently rejected, and the document-level
release handler only resets the drag state. -/
theorem manual_connection_protocol :
    (∀ (st : ConnectionDragState) (cid : String) (port : Option String)
        (t : String) (x y : Int), t ≠ "output" →
        handleAnchorMouseDown st cid port t x y = st)
    ∧ (∀ (st : ConnectionDragState) (cid : String) (port : Option String) (x y : Int),
        handleAnchorMouseDown st cid port "output" x y =
          { isDragging := true, sourceComponentId := some cid, sourcePort := port,
            currentX := x, currentY := y })
    ∧ (∀ (job : Job) (st : ConnectionDragState) (tc t : String),
        st.isDragging = false ∨ t ≠ "input" → handleAnchorMouseUp job st tc t = job)
    ∧ (∀ (job : Job) (st : ConnectionDragState) (tc s : String),
        st.isDragging = true → st.sourceComponentId = some s →
        handleAnchorMouseUp job st tc "input" =
          if s = tc ∨ ∃ f ∈ job.flows, f.fromId = s ∧ f.toId = tc then job
          else { job with flows := job.flows ++
            [{ name := manualPortName st.sourcePort, fromId := s, toId := tc,
               type := "flow" }] })
    ∧ (∀ st : ConnectionDragState,
        handleConnectionMouseUp st = initialConnectionDragState ∧
          (handleConnectionMouseUp st).isDragging = false) := by
  refine ⟨?_, ?_, ?_, ?_, ?_⟩
  · intro st cid port t x y ht
    unfold handleAnchorMouseDown
    rw [if_pos ht]
  · intro st cid port x y
    unfold handleAnchorMouseDown
    rw [if_neg (by simp)]
  · intro job st tc t hcond
    unfold handleAnchorMouseUp
    rw [if_pos hcond]
  · intro job st tc s hdrag hsrc
    unfold handleAnchorMouseUp
    rw [if_neg (by simp [hdrag])]
    by_cases he : s = tc
    · rw [if_pos (by rw [hsrc, he]), if_pos (Or.inl he)]
    · rw [if_neg (by rw [hsrc]; simp [he])]
      by_cases hdup : ∃ f ∈ job.flows, f.fromId = s ∧ f.toId = tc
      · have hfind : (job.flows.find? fun f =>
            st.sourceComponentId = some f.fromId && f.toId = tc).isSome := by
          rw [List.find?_isSome]
          obtain ⟨f, hf, hfrom, hto⟩ := hdup
          exact ⟨f, hf, by simp [hsrc, hfrom, hto]⟩
        rw [if_pos hfind, if_pos (Or.inr hdup)]
      · have hfind : ¬ (job.flows.find? fun f =>
            st.sourceComponentId = some f.fromId && f.toId = tc).isSome := by
          rw [List.find?_isSome]
          rintro ⟨f, hf, hp⟩
          rw [hsrc] at hp
          simp only [Bool.and_eq_true, decide_eq_true_eq, Option.some.injEq] at hp
          exact hdup ⟨f, hf, hp.1.symm, hp.2⟩
        rw [if_neg hfind, if_neg (by simp [he, hdup]), hsrc]
  · intro st
    exact ⟨rfl, rfl⟩

/-- C8 witness: instantiation at a concrete drag state and empty job. -/
theorem manual_connection_protocol_witness :
    handleAnchorMouseUp jobTT
        { isDragging := true, sourceComponentId := some "m_1", sourcePort := none,
          currentX := 0, currentY := 0 } "m_2" "input" =
      { jobTT with flows :=
          [{ name := "main", fromId := "m_1", toId := "m_2", type := "flow" }] } := by
  rw [manual_connection_protocol.2.2.2.1 jobTT
    { isDragging := true, sourceComponentId := some "m_1", sourcePort := none,
      currentX := 0, currentY := 0 } "m_2" "m_1" rfl rfl]
  rw [if_neg (by simp [jobTT])]
  rfl

/-- C5 counterexample: the claim says classification normalizes by stripping
exactly one leading `t`; but for `original_type = "unite"` the port lookup
removes the `t` of `unite` (the first occurrence anywhere), producing key
`unie` and the default ports, while the spec normalization leaves `unite`,
whose registry ports are `(["main", "lookup"], ["main"])`. -/
theorem classifier_normalization_cex :
    specNormalize "unite" = "unite" ∧
    portRegistry "unite" = some { inputs := ["main", "lookup"], outputs := ["main"] } ∧
    portLookupKey uniteNode = "unie" ∧
    getComponentRegistryInfo uniteNode = { inputs := ["main"], outputs := ["main"] } := by
  refine ⟨by decide, rfl, by decide, by decide⟩

/-- C5 (amended): classification is total; the category path normalizes by
lower-casing and stripping exactly one leading `t` when more characters
follow, but the port path instead removes the first `t` occurrence anywhere
in the lower-cased `original_type`; `tFileInputDelimited` and
`fileinputdelimited` nonetheless classify identically in both category and
port sets, and any unrecognized key defaults to `Transform` with
`main`/`main` ports. -/
theorem classifier_totality_and_normalization :
    (∀ (c : Component) (s : String), c.original_type = some s → s ≠ "" →
      getComponentCategory c = (categoryRegistry (specNormalize s)).getD .Transform)
    ∧ (∀ (c : Component) (s : String), c.original_type = some s →
        removeFirstT (strToLower s) ≠ "" →
        getComponentRegistryInfo c =
          (portRegistry (removeFirstT (strToLower s))).getD
            { inputs := ["main"], outputs := ["main"] })
    ∧ (getComponentCategory tfidNode = .Input ∧ getComponentCategory fidNode = .Input ∧
        getComponentRegistryInfo tfidNode = { inputs := ["main"], outputs := ["main"] } ∧
        getComponentRegistryInfo fidNode = { inputs := ["main"], outputs := ["main"] })
    ∧ (∀ c : Component, categoryRegistry (normalizeComponentType (chosenType c)) = none →
        getComponentCategory c = .Transform)
    ∧ (∀ c : Component, portRegistry (portLookupKey c) = none →
        getComponentRegistryInfo c = { inputs := ["main"], outputs := ["main"] }) := by
  refine ⟨?_, ?_, ⟨by decide, by decide, by decide, by decide⟩, ?_, ?_⟩
  · intro c s h hne
    unfold getComponentCategory chosenType specNormalize
    rw [h]
    simp [hne]
  · intro c s h hne
    unfold getComponentRegistryInfo portLookupKey
    rw [h]
    simp [hne]
  · intro c h
    unfold getComponentCategory
    rw [h]
    rfl
  · intro c h
    unfold getComponentRegistryInfo
    rw [h]
    rfl

/-- C5 witness: the amended category characterization instantiated at the
`unite` node. -/
theorem classifier_totality_and_normalization_witness :
    uniteNode.original_type = some "unite" ∧ ("unite" : String) ≠ "" ∧
    getComponentCategory uniteNode =
      (categoryRegistry (specNormalize "unite")).getD .Transform :=
  ⟨rfl, by decide,
    classifier_totality_and_normalization.1 uniteNode "unite" rfl (by decide)⟩

/-- C6 counterexample: a graph with two Transform-only candidates (type
`tMap`) has at least two candidates, is not ambiguous and does not have
exactly one Input and one Output; the claim requires a user-facing warning,
but Smart Join falls through silently: no warning, no modal, graph
unchanged. -/
theorem smart_join_silent_cex :
    (availableNodes jobTT).length = 2 ∧
    (inputNodesOf jobTT).length = 0 ∧ (outputNodesOf jobTT).length = 0 ∧
    (handleSmartJoin jobTT).outcome = .silentSkip ∧
    (handleSmartJoin jobTT).warning = none ∧
    (handleSmartJoin jobTT).modalShown = false ∧
    (handleSmartJoin jobTT).job = jobTT := by
  refine ⟨by decide, by decide, by decide, by decide, by decide, by decide, by decide⟩

/-- C6 (amended): with an empty component list Smart Join silently returns;
with components present but fewer than two candidates it aborts with the
insufficiency warning and an unchanged graph; in the non-ambiguous case
without exactly one Input and one Output candidate it aborts **silently**
(no warning, no modal) with the graph unchanged. -/
theorem smart_join_abort_behavior (job : Job) :
    (job.components = [] → handleSmartJoin job =
      { outcome := .noJob, warning := none, modalShown := false, guided := none,
        job := job })
    ∧ (job.components ≠ [] → (availableNodes job).length < 2 →
        handleSmartJoin job =
          { outcome := .insufficient, warning := some insufficientMsg,
            modalShown := true, guided := none, job := job })
    ∧ (job.components ≠ [] → ¬ (availableNodes job).length < 2 →
        ¬ ((sortedNodes job).length > 5 ∨ (inputNodesOf job).length > 1 ∨
            (outputNodesOf job).length > 1) →
        ¬ ((inputNodesOf job).length = 1 ∧ (outputNodesOf job).length = 1) →
        handleSmartJoin job =
          { outcome := .silentSkip, warning := none, modalShown := false,
            guided := none, job := job }) := by
  refine ⟨?_, ?_, ?_⟩
  · intro h0
    unfold handleSmartJoin
    rw [if_pos h0]
  · intro h0 h1
    unfold handleSmartJoin
    rw [if_neg h0, if_pos h1]
  · intro h0 h1 h2 h3
    unfold handleSmartJoin
    rw [if_neg h0, if_neg h1, if_neg h2, if_neg h3]

/-- C6 witness: the silent-abort branch of the amended claim instantiated at
the two-Transform job. -/
theorem smart_join_abort_behavior_witness :
    jobTT.components ≠ [] ∧ ¬ (availableNodes jobTT).length < 2 ∧
    handleSmartJoin jobTT =
      { outcome := .silentSkip, warning := none, modalShown := false,
        guided := none, job := jobTT } :=
  ⟨by decide, by decide,
    (smart_join_abort_behavior jobTT).2.2 (by decide) (by decide) (by decide) (by decide)⟩

theorem sortedNodes_length (job : Job) :
    (sortedNodes job).length = (availableNodes job).length :=
  (sortNodes_perm (availableNodes job)).length_eq

theorem inputNodesOf_length (job : Job) :
    (inputNodesOf job).length =
      ((availableNodes job).filter
        (fun c => getComponentCategory c = Category.Input)).length :=
  ((sortNodes_perm (availableNodes job)).filter _).length_eq

theorem outputNodesOf_length (job : Job) :
    (outputNodesOf job).length =
      ((availableNodes job).filter
        (fun c => getComponentCategory c = Category.Output)).length :=
  ((sortNodes_perm (availableNodes job)).filter _).length_eq

theorem category_filter_partition (l : List Component) :
    List.Perm
      (l.filter (fun c => getComponentCategory c = Category.Input) ++
        (l.filter (fun c => getComponentCategory c = Category.Transform) ++
          l.filter (fun c => getComponentCategory c = Category.Output))) l := by
  induction l with
  | nil => simp
  | cons a t ih =>
    cases hc : getComponentCategory a with
    | Input =>
      simp only [List.filter_cons, hc]
      simp only [decide_eq_true_eq, reduceCtorEq, if_false, if_true, ite_true, ite_false,
        decide_True, decide_False]
      exact ih.cons a
    | Transform =>
      simp only [List.filter_cons, hc]
      simp only [decide_eq_true_eq, reduceCtorEq, if_false, if_true, ite_true, ite_false,
        decide_True, decide_False]
      exact List.perm_middle.trans (ih.cons a)
    | Output =>
      simp only [List.filter_cons, hc]
      simp only [decide_eq_true_eq, reduceCtorEq, if_false, if_true, ite_true, ite_false,
        decide_True, decide_False]
      refine ((List.Perm.append_left _ List.perm_middle).trans List.perm_middle).trans (ih.cons a)

/-- C1: Smart Join enters guided mode — the ambiguity warning, the modal, and
an initialized guided join state — exactly when the candidate count exceeds 5
or more than one candidate is Input-category or more than one is
Output-category; the stored guided state holds the category partition of the
candidates, `finalOutput` is pre-filled with the single Output candidate's id
exactly when one exists, and the edge set is unchanged. -/
theorem smart_join_guided_iff (job : Job) :
    ((handleSmartJoin job).outcome = .ambiguous ↔
      ((availableNodes job).length > 5 ∨
        ((availableNodes job).filter
          (fun c => getComponentCategory c = Category.Input)).length > 1 ∨
        ((availableNodes job).filter
          (fun c => getComponentCategory c = Category.Output)).length > 1))
    ∧ ((handleSmartJoin job).outcome = .ambiguous →
        handleSmartJoin job =
          { outcome := .ambiguous, warning := some ambiguousMsg, modalShown := true,
            guided := some (mkGuidedData job), job := job })
    ∧ ((handleSmartJoin job).outcome ≠ .ambiguous → (handleSmartJoin job).guided = none)
    ∧ List.Perm ((mkGuidedData job).inputNodes ++
        ((mkGuidedData job).transformNodes ++ (mkGuidedData job).outputNodes))
        (availableNodes job)
    ∧ (∀ o : Component, outputNodesOf job = [o] →
        (mkGuidedData job).finalOutput = some o.id)
    ∧ ((outputNodesOf job).length ≠ 1 → (mkGuidedData job).finalOutput = none) := by
  have hempty : job.components = [] → availableNodes job = [] := by
    intro h
    simp [availableNodes, h]
  have hlen := sortedNodes_length job
  have hin := inputNodesOf_length job
  have hout := outputNodesOf_length job
  have hinle := List.length_filter_le
    (fun c => decide (getComponentCategory c = Category.Input)) (availableNodes job)
  have houtle := List.length_filter_le
    (fun c => decide (getComponentCategory c = Category.Output)) (availableNodes job)
  refine ⟨?_, ?_, ?_, ?_, ?_, ?_⟩
  · unfold handleSmartJoin
    split_ifs with h0 h1 h2 h3 h4
    · refine iff_of_false (by simp) ?_
      rw [hempty h0]
      simp
    · refine iff_of_false (by simp) ?_
      rintro (hc | hc | hc) <;> omega
    · exact iff_of_true rfl (by omega)
    · refine iff_of_false (by simp) ?_
      rintro (hc | hc | hc) <;> omega
    · refine iff_of_false (by simp) ?_
      rintro (hc | hc | hc) <;> omega
    · refine iff_of_false (by simp) ?_
      rintro (hc | hc | hc) <;> omega
  · intro h
    unfold handleSmartJoin at h ⊢
    split_ifs at h ⊢ <;> simp_all
  · intro h
    unfold handleSmartJoin at h ⊢
    split_ifs at h ⊢ <;> simp_all
  · have := category_filter_partition (sortedNodes job)
    exact (this.trans (sortNodes_perm (availableNodes job)))
  · intro o ho
    simp [mkGuidedData, ho]
  · intro hne
    rcases ho : outputNodesOf job with _ | ⟨o, _ | ⟨p, rest⟩⟩
    · simp [mkGuidedData, ho]
    · rw [ho] at hne
      simp at hne
    · simp [mkGuidedData, ho]

/-- C1 witness: the guided-mode characterization instantiated at a job with
two Input candidates and one Output candidate. -/
theorem smart_join_guided_iff_witness :
    (handleSmartJoin jobAmb).outcome = .ambiguous ∧
    handleSmartJoin jobAmb =
      { outcome := .ambiguous, warning := some ambiguousMsg, modalShown := true,
        guided := some (mkGuidedData jobAmb), job := jobAmb } :=
  ⟨by decide, (smart_join_guided_iff jobAmb).2.1 (by decide)⟩

/-- C2: every edge the Auto-Connector creates links a consecutive pair of the
ordered candidate sequence, carries port name `main` and kind `flow`, never
targets an Input-category node, never originates from an Output-category
node, and never duplicates an existing `(from, to)` pair; on success all
created edges are appended to the existing edge set in a single commit. -/
theorem auto_connector_edge_rules :
    (∀ (existing : List FlowEdge) (l : List Component), ∀ e ∈ buildNewFlows existing l,
      e.name = "main" ∧ e.type = "flow" ∧
      ∃ l1 a b l2, l = l1 ++ a :: b :: l2 ∧ e.fromId = a.id ∧ e.toId = b.id ∧
        getComponentCategory b ≠ .Input ∧ getComponentCategory a ≠ .Output ∧
        ¬ ∃ f ∈ existing, f.fromId = a.id ∧ f.toId = b.id)
    ∧ (∀ job : Job, (handleSmartJoin job).outcome = .success →
        (handleSmartJoin job).job.flows = job.flows ++ newFlowsOf job) := by
  refine ⟨fun existing l => buildNewFlows_spec existing l, ?_⟩
  intro job h
  rw [handleSmartJoin_success_job job h]

/-- C2 witness: the single-commit append instantiated at the one-Input
one-Output job. -/
theorem auto_connector_edge_rules_witness :
    (handleSmartJoin jobInOut).outcome = .success ∧
    (handleSmartJoin jobInOut).job.flows = jobInOut.flows ++ newFlowsOf jobInOut :=
  ⟨by decide, auto_connector_edge_rules.2 jobInOut (by decide)⟩

theorem nodeLE_of_key_eq {a b : Component} (h : nodeKey a = nodeKey b) : nodeLE a b := by
  unfold nodeLE
  rw [h]
  omega

theorem key_ne_of_not_nodeLE {a b : Component} (h : ¬ nodeLE a b) :
    nodeKey a ≠ nodeKey b :=
  fun he => h (nodeLE_of_key_eq he)

theorem filter_key_orderedInsert (k : Nat × Nat) (x : Component) (l : List Component) :
    (List.orderedInsert nodeLE x l).filter (fun c => nodeKey c = k) =
      if nodeKey x = k then x :: l.filter (fun c => nodeKey c = k)
      else l.filter (fun c => nodeKey c = k) := by
  induction l with
  | nil =>
    by_cases hx : nodeKey x = k <;> simp [List.orderedInsert, List.filter_cons, hx]
  | cons b bs ih =>
    by_cases hle : nodeLE x b
    · rw [List.orderedInsert, if_pos hle]
      by_cases hx : nodeKey x = k <;> simp [List.filter_cons, hx]
    · rw [List.orderedInsert, if_neg hle]
      have hne : nodeKey x ≠ nodeKey b := key_ne_of_not_nodeLE hle
      by_cases hb : nodeKey b = k
      · have hx : ¬ nodeKey x = k := by
          rw [← hb]
          exact hne
        simp [List.filter_cons, hb, hx, ih]
      · by_cases hx : nodeKey x = k <;> simp [List.filter_cons, hb, hx, ih]

theorem filter_key_sortNodes (k : Nat × Nat) (l : List Component) :
    (sortNodes l).filter (fun c => nodeKey c = k) =
      l.filter (fun c => nodeKey c = k) := by
  induction l with
  | nil => rfl
  | cons a t ih =>
    show (List.orderedInsert nodeLE a (List.insertionSort nodeLE t)).filter _ = _
    rw [filter_key_orderedInsert]
    by_cases hx : nodeKey a = k <;>
      simp only [List.filter_cons, hx, decide_True, decide_False, if_true, if_false,
        ite_true, ite_false] <;>
      rw [← ih] <;> rfl

/-- C4: the candidate set is exactly the nodes with no outgoing edge; the
order is a permutation of it sorted by the category-priority-then-suffix key;
the sort is stable (nodes with equal keys keep their original relative
order, stated as filter invariance per key); Input candidates precede
Transform candidates precede Output candidates; and shuffled same-category
candidates `n_3, n_1, n_2` come out as `n_1, n_2, n_3`. -/
theorem candidate_selection_and_order (job : Job) :
    (∀ c : Component, c ∈ availableNodes job ↔
      c ∈ job.components ∧ ∀ f ∈ job.flows, f.fromId ≠ c.id)
    ∧ List.Perm (sortedNodes job) (availableNodes job)
    ∧ List.Sorted nodeLE (sortedNodes job)
    ∧ (∀ k : Nat × Nat, (sortedNodes job).filter (fun c => nodeKey c = k) =
        (availableNodes job).filter (fun c => nodeKey c = k))
    ∧ List.Pairwise (fun a b => categoryPriorityOf (getComponentCategory a) ≤
        categoryPriorityOf (getComponentCategory b)) (sortedNodes job)
    ∧ (sortNodes [nodeN3, nodeN1, nodeN2]).map Component.id = ["n_1", "n_2", "n_3"] := by
  refine ⟨?_, sortNodes_perm _, sortNodes_sorted _,
    fun k => filter_key_sortNodes k _, ?_, by decide⟩
  · intro c
    unfold availableNodes flowFroms
    rw [List.mem_filter]
    constructor
    · rintro ⟨hm, hp⟩
      have hnm : c.id ∉ job.flows.map FlowEdge.fromId := by simpa using hp
      refine ⟨hm, fun f hf he => ?_⟩
      exact hnm (List.mem_map.mpr ⟨f, hf, he⟩)
    · rintro ⟨hm, hall⟩
      refine ⟨hm, ?_⟩
      have hnm : c.id ∉ job.flows.map FlowEdge.fromId := by
        rw [List.mem_map]
        rintro ⟨f, hf, he⟩
        exact hall f hf he
      simpa using hnm
  · exact (sortNodes_sorted (availableNodes job)).imp (fun hab => by
      unfold nodeLE at hab
      unfold nodeKey at hab
      omega)

/-- C4 witness: membership characterization and the shuffled-suffix example
instantiated at concrete nodes. -/
theorem candidate_selection_and_order_witness :
    inNode ∈ availableNodes jobInOut ∧
    (sortNodes [nodeN3, nodeN1, nodeN2]).map Component.id = ["n_1", "n_2", "n_3"] :=
  ⟨((candidate_selection_and_order jobInOut).1 inNode).mpr ⟨by decide, by decide⟩,
    (candidate_selection_and_order jobInOut).2.2.2.2.2⟩

theorem categoryPriorityOf_Input : categoryPriorityOf Category.Input = 1 := rfl

theorem categoryPriorityOf_Output : categoryPriorityOf Category.Output = 3 := rfl

theorem handleSmartJoin_insufficient (job : Job) (h0 : job.components ≠ [])
    (h1 : (availableNodes job).length < 2) :
    handleSmartJoin job =
      { outcome := .insufficient, warning := some insufficientMsg,
        modalShown := true, guided := none, job := job } := by
  unfold handleSmartJoin
  rw [if_neg h0, if_pos h1]

theorem availableNodes_ids_nodup (job : Job)
    (h : (job.components.map Component.id).Nodup) :
    ((availableNodes job).map Component.id).Nodup :=
  h.sublist ((List.filter_sublist job.components).map Component.id)

theorem sortedNodes_ids_nodup (job : Job)
    (h : (job.components.map Component.id).Nodup) :
    ((sortedNodes job).map Component.id).Nodup :=
  (((sortNodes_perm (availableNodes job)).map Component.id).nodup_iff).mpr
    (availableNodes_ids_nodup job h)

theorem no_input_in_tail (job : Job) (h1 : (inputNodesOf job).length ≤ 1) :
    ∀ b ∈ (sortedNodes job).tail, getComponentCategory b ≠ Category.Input := by
  rcases hs : sortedNodes job with _ | ⟨s0, tl⟩
  · simp
  · intro b hb hcat
    simp only [List.tail_cons] at hb
    have hsorted : List.Sorted nodeLE (s0 :: tl) := hs ▸ sortNodes_sorted _
    have hle : nodeLE s0 b := List.rel_of_sorted_cons hsorted b hb
    have hpri : categoryPriorityOf (getComponentCategory s0) ≤ 1 := by
      simp only [nodeLE, nodeKey, hcat, categoryPriorityOf_Input] at hle
      omega
    have hs0 : getComponentCategory s0 = Category.Input :=
      category_input_of_priority_le_one _ hpri
    have heq : inputNodesOf job =
        (s0 :: tl).filter (fun c => getComponentCategory c = Category.Input) := by
      rw [inputNodesOf, hs]
    rw [heq, List.filter_cons_of_pos (by simp [hs0])] at h1
    have hbf : b ∈ tl.filter (fun c => getComponentCategory c = Category.Input) :=
      List.mem_filter.mpr ⟨hb, by simp [hcat]⟩
    have hpos : 0 < (tl.filter
        (fun c => getComponentCategory c = Category.Input)).length :=
      List.length_pos.mpr (List.ne_nil_of_mem hbf)
    simp only [List.length_cons] at h1
    omega

theorem no_output_in_dropLast (job : Job) (h1 : (outputNodesOf job).length ≤ 1) :
    ∀ a ∈ (sortedNodes job).dropLast, getComponentCategory a ≠ Category.Output := by
  intro a ha hcat
  have hne : sortedNodes job ≠ [] := by
    intro h0
    rw [h0] at ha
    simp at ha
  have hdec : (sortedNodes job).dropLast ++ [(sortedNodes job).getLast hne] =
      sortedNodes job := List.dropLast_append_getLast hne
  have hsorted : List.Sorted nodeLE
      ((sortedNodes job).dropLast ++ [(sortedNodes job).getLast hne]) := by
    rw [hdec]
    exact sortNodes_sorted _
  rw [List.Sorted, List.pairwise_append] at hsorted
  have hle : nodeLE a ((sortedNodes job).getLast hne) :=
    hsorted.2.2 a ha _ (List.mem_singleton_self _)
  have hpri : 3 ≤ categoryPriorityOf
      (getComponentCategory ((sortedNodes job).getLast hne)) := by
    simp only [nodeLE, nodeKey, hcat, categoryPriorityOf_Output] at hle
    omega
  have hlst : getComponentCategory ((sortedNodes job).getLast hne) = Category.Output :=
    category_output_of_three_le_priority _ hpri
  have heq : outputNodesOf job =
      ((sortedNodes job).dropLast ++ [(sortedNodes job).getLast hne]).filter
        (fun c => getComponentCategory c = Category.Output) := by
    rw [outputNodesOf, hdec]
  rw [heq, List.filter_append] at h1
  have haf : a ∈ (sortedNodes job).dropLast.filter
      (fun c => getComponentCategory c = Category.Output) :=
    List.mem_filter.mpr ⟨ha, by simp [hcat]⟩
  have hpos : 0 < ((sortedNodes job).dropLast.filter
      (fun c => getComponentCategory c = Category.Output)).length :=
    List.length_pos.mpr (List.ne_nil_of_mem haf)
  rw [List.length_append, List.filter_cons_of_pos (by simp [hlst])] at h1
  simp only [List.filter_nil, List.length_cons, List.length_nil] at h1
  omega

theorem sorted_no_outgoing (job : Job) :
    ∀ a ∈ sortedNodes job, ∀ f ∈ job.flows, f.fromId ≠ a.id := by
  intro a ha f hf he
  have ha' : a ∈ availableNodes job := (sortNodes_perm _).mem_iff.mp ha
  have hp := List.of_mem_filter ha'
  rw [decide_eq_true_eq] at hp
  exact hp (List.mem_map.mpr ⟨f, hf, he⟩)

theorem buildNewFlows_eq_chain (existing : List FlowEdge) :
    ∀ l : List Component,
      (∀ b ∈ l.tail, getComponentCategory b ≠ Category.Input) →
      (∀ a ∈ l.dropLast, getComponentCategory a ≠ Category.Output) →
      (∀ a ∈ l, ∀ f ∈ existing, f.fromId ≠ a.id) →
      buildNewFlows existing l = chainFlows l := by
  intro l
  induction l with
  | nil => intro _ _ _; rfl
  | cons a t ih =>
    cases t with
    | nil => intro _ _ _; rfl
    | cons b rest =>
      intro hIn hOut hEx
      have hanyf : ¬ existing.any (fun f => f.fromId = a.id && f.toId = b.id) = true := by
        rw [List.any_eq_true]
        rintro ⟨f, hf, hp⟩
        simp only [Bool.and_eq_true, decide_eq_true_eq] at hp
        exact hEx a (List.mem_cons_self a _) f hf hp.1
      simp only [buildNewFlows, chainFlows]
      rw [if_neg (hIn b (List.mem_cons_self b rest)),
        if_neg (hOut a (by rw [List.dropLast_cons₂]; exact List.mem_cons_self a _)),
        if_neg hanyf]
      congr 1
      refine ih ?_ ?_ ?_
      · intro x hx
        exact hIn x (List.mem_cons_of_mem b hx)
      · intro x hx
        refine hOut x ?_
        rw [List.dropLast_cons₂]
        exact List.mem_cons_of_mem a hx
      · intro x hx
        exact hEx x (List.mem_cons_of_mem a hx)

theorem chainFlows_map_fromId (l : List Component) :
    (chainFlows l).map FlowEdge.fromId = l.dropLast.map Component.id := by
  induction l with
  | nil => rfl
  | cons a t ih =>
    cases t with
    | nil => rfl
    | cons b rest =>
      simp only [chainFlows, List.map_cons, List.dropLast_cons₂]
      rw [ih]

theorem second_run_available_length (job : Job)
    (hnd : (job.components.map Component.id).Nodup)
    (hsucc : (handleSmartJoin job).outcome = .success) :
    (availableNodes (handleSmartJoin job).job).length = 1 := by
  obtain ⟨hne, hlen2, hnamb, ⟨hin1, hout1⟩, hnf⟩ :=
    (handleSmartJoin_success_iff job).mp hsucc
  rw [handleSmartJoin_success_job job hsucc]
  have hchain : newFlowsOf job = chainFlows (sortedNodes job) := by
    unfold newFlowsOf
    refine buildNewFlows_eq_chain job.flows (sortedNodes job) ?_ ?_ ?_
    · exact no_input_in_tail job (by omega)
    · exact no_output_in_dropLast job (by omega)
    · exact sorted_no_outgoing job
  have hnewfr : (newFlowsOf job).map FlowEdge.fromId =
      (sortedNodes job).dropLast.map Component.id := by
    rw [hchain, chainFlows_map_fromId]
  have hsplit : availableNodes { job with flows := job.flows ++ newFlowsOf job } =
      (availableNodes job).filter
        (fun c => c.id ∉ (sortedNodes job).dropLast.map Component.id) := by
    unfold availableNodes
    rw [List.filter_filter]
    refine List.filter_congr ?_
    intro c _
    have hfr : flowFroms { job with flows := job.flows ++ newFlowsOf job } =
        flowFroms job ++ (sortedNodes job).dropLast.map Component.id := by
      simp only [flowFroms, List.map_append]
      rw [hnewfr]
    rw [hfr]
    by_cases hA : c.id ∈ flowFroms job <;>
      by_cases hB : c.id ∈ (sortedNodes job).dropLast.map Component.id <;>
      simp [List.mem_append, hA, hB]
  rw [hsplit]
  rw [← ((sortNodes_perm (availableNodes job)).filter
    (fun c => decide (c.id ∉ (sortedNodes job).dropLast.map Component.id))).length_eq]
  have hnil : sortedNodes job ≠ [] := by
    intro h0
    have := sortedNodes_length job
    rw [h0] at this
    simp at this
    omega
  have hdec : (sortedNodes job).dropLast ++ [(sortedNodes job).getLast hnil] =
      sortedNodes job := List.dropLast_append_getLast hnil
  have hfil : (sortedNodes job).filter
      (fun c => c.id ∉ (sortedNodes job).dropLast.map Component.id) =
      ((sortedNodes job).dropLast ++ [(sortedNodes job).getLast hnil]).filter
        (fun c => c.id ∉ (sortedNodes job).dropLast.map Component.id) := by
    rw [hdec]
  rw [show sortNodes (availableNodes job) = sortedNodes job from rfl, hfil,
    List.filter_append]
  have hdlnil : (sortedNodes job).dropLast.filter
      (fun c => c.id ∉ (sortedNodes job).dropLast.map Component.id) = [] := by
    rw [List.filter_eq_nil_iff]
    intro a ha
    simp only [decide_eq_true_eq, Decidable.not_not]
    exact List.mem_map.mpr ⟨a, ha, rfl⟩
  have hlstq : ((sortedNodes job).getLast hnil).id ∉
      (sortedNodes job).dropLast.map Component.id := by
    have hnodup : ((sortedNodes job).map Component.id).Nodup :=
      sortedNodes_ids_nodup job hnd
    rw [← hdec, List.map_append] at hnodup
    have hdisj := List.disjoint_of_nodup_append hnodup
    intro hmem
    exact hdisj hmem (by simp)
  rw [hdlnil, List.filter_cons_of_pos (by simpa using hlstq)]
  simp

/-- C3 counterexample: on the one-Input-one-Output job the first Smart Join
run succeeds; running it again immediately leaves the flows unchanged but
reports the insufficient-candidates warning, not the claimed
"nothing new to connect" no-op outcome. -/
theorem smart_join_second_run_cex :
    (handleSmartJoin jobInOut).outcome = .success ∧
    (handleSmartJoin (handleSmartJoin jobInOut).job).job.flows =
      (handleSmartJoin jobInOut).job.flows ∧
    (handleSmartJoin (handleSmartJoin jobInOut).job).outcome ≠ .noNew ∧
    (handleSmartJoin (handleSmartJoin jobInOut).job).outcome = .insufficient ∧
    (handleSmartJoin (handleSmartJoin jobInOut).job).warning = some insufficientMsg := by
  refine ⟨by decide, by decide, by decide, by decide, by decide⟩

/-- C3 (amended): for every graph with distinct component ids, an immediate
second Smart Join run leaves the edge set produced by the first run
unchanged; but when the first run succeeded, the second run reports the
insufficient-candidates outcome (only one unconnected node remains), not the
"nothing new to connect" no-op outcome. -/
theorem smart_join_second_run (job : Job)
    (hnd : (job.components.map Component.id).Nodup) :
    (handleSmartJoin (handleSmartJoin job).job).job.flows =
      (handleSmartJoin job).job.flows ∧
    ((handleSmartJoin job).outcome = .success →
      (handleSmartJoin (handleSmartJoin job).job).outcome = .insufficient ∧
      (handleSmartJoin (handleSmartJoin job).job).outcome ≠ .noNew) := by
  by_cases hs : (handleSmartJoin job).outcome = .success
  · have hlen := second_run_available_length job hnd hs
    have hcompne : (handleSmartJoin job).job.components ≠ [] := by
      rw [handleSmartJoin_components job]
      exact ((handleSmartJoin_success_iff job).mp hs).1
    rw [handleSmartJoin_insufficient _ hcompne (by omega)]
    exact ⟨rfl, fun _ => ⟨rfl, by simp⟩⟩
  · have hjob : (handleSmartJoin job).job = job := handleSmartJoin_job_of_ne_success job hs
    rw [hjob, hjob]
    exact ⟨rfl, fun hcon => absurd hcon hs⟩

/-- C3 witness: the amended second-run behavior instantiated at the
one-Input-one-Output job, whose component ids are distinct. -/
theorem smart_join_second_run_witness :
    (jobInOut.components.map Component.id).Nodup ∧
    (handleSmartJoin (handleSmartJoin jobInOut).job).job.flows =
      (handleSmartJoin jobInOut).job.flows :=
  ⟨by decide, (smart_join_second_run jobInOut (by decide)).1⟩
